import Mathlib

/-!
Verification of the us-stock-monitor repository (src/database.py, src/app.py)
against its natural-language specification.

The collector pipeline (`StockDB.fetch_data`) and the dashboard read path
(`load_data`) are shallowly embedded below.  Numeric cell values are modelled
as `RVal`: either a finite rational, a signed infinity, or NaN, mirroring the
IEEE behaviour of the pandas expressions in database.py (division by zero
yields a signed infinity or NaN; `pd.isna` is true exactly on NaN).  Dates are
modelled as integers; the ISO `YYYY-MM-DD` strings stored by the code compare
lexicographically exactly as the underlying dates compare chronologically, so
`ORDER BY date` and the `date >= date('now', '-N day')` cutoff translate to
integer comparisons.
-/

namespace StockMonitor

/-- IEEE-like scalar produced by the pandas arithmetic in `fetch_data`:
a finite rational, `+inf`, `-inf`, or NaN. -/
inductive RVal where
  | fin (q : ℚ)
  | posinf
  | neginf
  | nan
deriving DecidableEq, Repr

/-- IEEE division of two finite values, as pandas performs it:
finite quotient when the divisor is nonzero, otherwise a signed infinity
(nonzero dividend) or NaN (`0/0`). -/
def rdiv (a b : ℚ) : RVal :=
  if b ≠ 0 then .fin (a / b)
  else if 0 < a then .posinf
  else if a < 0 then .neginf
  else .nan

/-- Subtracting the constant 1, as in pandas `pct_change` (`x/y - 1`). -/
def rvSub1 : RVal → RVal
  | .fin q => .fin (q - 1)
  | .posinf => .posinf
  | .neginf => .neginf
  | .nan => .nan

/-- Multiplying by the constant 100 (`* 100` in database.py lines 58-59). -/
def rvMul100 : RVal → RVal
  | .fin q => .fin (q * 100)
  | .posinf => .posinf
  | .neginf => .neginf
  | .nan => .nan

/-- `pd.isna` on an IEEE scalar: true exactly on NaN. -/
def RVal.isNan : RVal → Bool
  | .nan => true
  | _ => false

/-- Finiteness of an IEEE scalar (neither NaN nor an infinity). -/
def RVal.isFinite : RVal → Bool
  | .fin _ => true
  | _ => false

/-- One raw OHLCV bar as returned by `ticker.history` (the provider).
Raw provider data is finite. -/
structure RawBar where
  date : ℤ
  op : ℚ
  high : ℚ
  low : ℚ
  close : ℚ
  volume : ℚ
deriving DecidableEq, Repr, Inhabited

/-- Close of bar `i` (out-of-range reads never occur in the pipeline;
a default bar keeps the accessor total). -/
def closeAt (bars : List RawBar) (i : ℕ) : ℚ := (bars.getD i default).close

/-- High of bar `i`. -/
def highAt (bars : List RawBar) (i : ℕ) : ℚ := (bars.getD i default).high

/-- Low of bar `i`. -/
def lowAt (bars : List RawBar) (i : ℕ) : ℚ := (bars.getD i default).low

/-- Volume of bar `i`. -/
def volAt (bars : List RawBar) (i : ℕ) : ℚ := (bars.getD i default).volume

/-- Date of bar `i`. -/
def dateAt (bars : List RawBar) (i : ℕ) : ℤ := (bars.getD i default).date

/-- database.py line 58: `df['pct_change'] = df['Close'].pct_change() * 100`.
pandas `pct_change` is `close[i]/close[i-1] - 1`, NaN at index 0. -/
def pctChangeAt (bars : List RawBar) (i : ℕ) : RVal :=
  if i = 0 then .nan
  else rvMul100 (rvSub1 (rdiv (closeAt bars i) (closeAt bars (i - 1))))

/-- database.py line 59:
`df['amplitude'] = (df['High'] - df['Low']) / df['Close'].shift(1) * 100`;
`shift(1)` is NaN at index 0. -/
def amplitudeAt (bars : List RawBar) (i : ℕ) : RVal :=
  if i = 0 then .nan
  else rvMul100 (rdiv (highAt bars i - lowAt bars i) (closeAt bars (i - 1)))

/-- database.py line 60: `df['amount'] = df['Close'] * df['Volume']`. -/
def amountAt (bars : List RawBar) (i : ℕ) : ℚ :=
  closeAt bars i * volAt bars i

/-- `df['Volume'].rolling(window=5).mean()` at index `i`: with the pandas
default `min_periods = window`, the mean is NaN until five observations
exist (`i < 4`), then the arithmetic mean of the window `i-4 .. i`. -/
def rollMean5 (bars : List RawBar) (i : ℕ) : RVal :=
  if i + 1 < 5 then .nan
  else .fin ((volAt bars (i - 4) + volAt bars (i - 3) + volAt bars (i - 2)
    + volAt bars (i - 1) + volAt bars i) / 5)

/-- database.py line 63:
`df['vol_ratio'] = df['Volume'] / df['Volume'].rolling(window=5).mean()`.
Division of a finite volume by the rolling mean: NaN mean gives NaN; a zero
mean gives a signed infinity or NaN; an infinite mean would give 0 (it never
arises since the mean of finite values is finite). -/
def volRatioAt (bars : List RawBar) (i : ℕ) : RVal :=
  match rollMean5 bars i with
  | .fin m => rdiv (volAt bars i) m
  | .nan => .nan
  | .posinf => .fin 0
  | .neginf => .fin 0

/-- One row of the `daily_quotes` table as written by the INSERT at
database.py lines 75-80.  The schema's `turnover` column is never named in
the INSERT and stays NULL, so it is omitted here. -/
structure Row where
  symbol : String
  date : ℤ
  close : ℚ
  pct_change : RVal
  volume : ℚ
  amount : ℚ
  amplitude : RVal
  vol_ratio : RVal
  pe_ratio : ℚ
deriving DecidableEq, Repr

/-- The `(symbol, date)` primary key of a row. -/
def Row.key (r : Row) : String × ℤ := (r.symbol, r.date)

/-- The row the loop body at database.py lines 73-80 builds for bar `i`. -/
def mkRow (s : String) (bars : List RawBar) (pe : ℚ) (i : ℕ) : Row :=
  { symbol := s
    date := dateAt bars i
    close := closeAt bars i
    pct_change := pctChangeAt bars i
    volume := volAt bars i
    amount := amountAt bars i
    amplitude := amplitudeAt bars i
    vol_ratio := volRatioAt bars i
    pe_ratio := pe }

/-- The rows a single `fetch_data` iteration inserts for one symbol: one row
per bar, except that bars whose `pct_change` is NaN are skipped
(`if pd.isna(row['pct_change']): continue`, database.py line 74). -/
def deriveRows (s : String) (bars : List RawBar) (pe : ℚ) : List Row :=
  (List.range bars.length).filterMap fun i =>
    if (pctChangeAt bars i).isNan then none else some (mkRow s bars pe i)

/-- The `daily_quotes` table, in rowid (insertion) order. -/
abbrev Store := List Row

/-- `INSERT OR REPLACE` keyed on `(symbol, date)` (database.py lines 75-80):
SQLite deletes any row with the same primary key and appends the new row. -/
def upsert (db : Store) (r : Row) : Store :=
  (db.filter fun x => decide (x.key ≠ r.key)) ++ [r]

/-- Inserting a batch of rows one by one, as the iterrows loop does. -/
def upsertAll (db : Store) (rows : List Row) : Store :=
  rows.foldl upsert db

/-- database.py line 67: `pe = info.get('trailingPE', 0)` — the trailing P/E
snapshot from the provider metadata, defaulting to 0 when absent. -/
def peOf (info : Option ℚ) : ℚ := info.getD 0

/-- A provider-side failure (network/API error raised by the yfinance call). -/
inductive FetchErr where
  | providerDown
deriving DecidableEq, Repr

/-- What the provider returns for one symbol: either a raised error, or the
OHLCV history together with the optional `trailingPE` metadata entry. -/
abbrev ProviderResult := Except FetchErr (List RawBar × Option ℚ)

/-- `StockDB.fetch_data` (database.py lines 48-81): iterate over the symbol
list; an empty history means `continue`; a non-empty history is derived and
upserted (each symbol's rows are committed before the next symbol).  A raised
provider error is not caught anywhere in the loop body, so it aborts the
remaining iterations; rows committed for earlier symbols persist.  The result
is the final table together with the escaped error, if any. -/
def fetchData (provider : String → ProviderResult) :
    List String → Store → Store × Option FetchErr
  | [], db => (db, none)
  | s :: rest, db =>
    match provider s with
    | .error e => (db, some e)
    | .ok (hist, info) =>
      if hist.isEmpty then fetchData provider rest db
      else fetchData provider rest (upsertAll db (deriveRows s hist (peOf info)))

/-- `load_data` (app.py lines 38-55).  `conn = none` models
`sqlite3.connect` (or the query) raising: the except branch shows a UI error
(`st.error`) and returns an empty DataFrame.  Otherwise the rows matching
`symbol IN (...) AND date >= date('now', '-days day')` are returned sorted
ascending by date only; SQL leaves the relative order of equal dates
unspecified, modelled here as the table's insertion order (a stable sort).
The returned Bool records whether the DB-read-failure UI error was shown. -/
def loadData (conn : Option Store) (symbols : List String) (days : ℤ)
    (now : ℤ) : List Row × Bool :=
  if symbols.isEmpty then ([], false)
  else
    match conn with
    | none => ([], true)
    | some db =>
      (((db.filter fun r =>
          symbols.contains r.symbol && decide (now - days ≤ r.date))).mergeSort
        (fun a b => decide (a.date ≤ b.date)), false)

/-- What the dashboard body (app.py lines 86-169) presents after loading:
charts over the rows when some were returned, otherwise the
`未找到数据` error box. -/
inductive ViewOut where
  | charts (rows : List Row)
  | noDataMsg
deriving DecidableEq, Repr

/-- The dashboard's read path end to end: `load_data` followed by the
empty-check at app.py lines 89/168-169.  Second component: whether the
DB-read-failure error from inside `load_data` was shown. -/
def appView (conn : Option Store) (symbols : List String) (days : ℤ)
    (now : ℤ) : ViewOut × Bool :=
  let out := loadData conn symbols days now
  (if out.1.isEmpty then .noDataMsg else .charts out.1, out.2)

/-! ### Lemmas about the Metric Deriver -/

theorem deriveRows_mem_iff {s : String} {bars : List RawBar} {pe : ℚ} {r : Row} :
    r ∈ deriveRows s bars pe ↔
      ∃ i, i < bars.length ∧ ¬ pctChangeAt bars i = .nan ∧ r = mkRow s bars pe i := by
  simp only [deriveRows, List.mem_filterMap, List.mem_range]
  constructor
  · rintro ⟨i, hi, hf⟩
    by_cases h : (pctChangeAt bars i).isNan
    · simp [h] at hf
    · refine ⟨i, hi, ?_, ?_⟩
      · cases hpc : pctChangeAt bars i <;> simp_all [RVal.isNan]
      · simp [h] at hf
        exact hf.symm
  · rintro ⟨i, hi, hn, rfl⟩
    refine ⟨i, hi, ?_⟩
    have h : (pctChangeAt bars i).isNan = false := by
      cases hpc : pctChangeAt bars i <;> simp_all [RVal.isNan]
    simp [h]

theorem deriveRows_pe {s : String} {bars : List RawBar} {pe : ℚ} {r : Row}
    (h : r ∈ deriveRows s bars pe) : r.pe_ratio = pe := by
  obtain ⟨i, -, -, rfl⟩ := deriveRows_mem_iff.mp h
  rfl

theorem pctChangeAt_zero (bars : List RawBar) : pctChangeAt bars 0 = .nan := by
  simp [pctChangeAt]

theorem pctChangeAt_nan_iff (bars : List RawBar) (i : ℕ) (hi : i ≠ 0) :
    pctChangeAt bars i = .nan ↔ closeAt bars (i - 1) = 0 ∧ closeAt bars i = 0 := by
  simp only [pctChangeAt, if_neg hi, rdiv]
  by_cases h : closeAt bars (i - 1) = 0
  · rcases lt_trichotomy 0 (closeAt bars i) with hc | hc | hc
    · simp [h, hc, rvSub1, rvMul100, hc.ne.symm]
    · simp [h, ← hc, rvSub1, rvMul100]
    · simp [h, hc, rvSub1, rvMul100, hc.ne, not_lt_of_lt hc]
  · simp [h, rvSub1, rvMul100]

theorem filterMap_ite_eq_map_filter {α β : Type} (l : List α) (p : α → Bool) (g : α → β) :
    (l.filterMap fun i => if p i then none else some (g i))
      = (l.filter fun i => !p i).map g := by
  induction l with
  | nil => rfl
  | cons a l ih => by_cases h : p a <;> simp [h, ih]

/-- The raw indices whose rows survive the NaN-`pct_change` filter. -/
def keptIdx (bars : List RawBar) : List ℕ :=
  (List.range bars.length).filter fun i => !(pctChangeAt bars i).isNan

theorem deriveRows_eq_map (s : String) (bars : List RawBar) (pe : ℚ) :
    deriveRows s bars pe = (keptIdx bars).map (mkRow s bars pe) :=
  filterMap_ite_eq_map_filter ..

theorem mem_keptIdx {bars : List RawBar} {i : ℕ} :
    i ∈ keptIdx bars ↔ i < bars.length ∧ ¬ pctChangeAt bars i = .nan := by
  simp only [keptIdx, List.mem_filter, List.mem_range, Bool.not_eq_true']
  constructor
  · rintro ⟨h1, h2⟩
    exact ⟨h1, by cases hpc : pctChangeAt bars i <;> simp_all [RVal.isNan]⟩
  · rintro ⟨h1, h2⟩
    exact ⟨h1, by cases hpc : pctChangeAt bars i <;> simp_all [RVal.isNan]⟩

theorem keptIdx_sorted (bars : List RawBar) : List.Pairwise (· < ·) (keptIdx bars) :=
  (List.pairwise_lt_range _).filter _

theorem keptIdx_eq (bars : List RawBar)
    (h : ∀ i, 1 ≤ i → i < bars.length → ¬ pctChangeAt bars i = .nan) :
    keptIdx bars = List.range' 1 (bars.length - 1) := by
  cases bars with
  | nil => rfl
  | cons b rest =>
    have hlen : (b :: rest).length = rest.length + 1 := rfl
    rw [keptIdx, hlen, List.range_eq_range', List.range'_succ]
    simp only [Nat.add_succ_sub_one]
    rw [List.filter_cons]
    have h0 : (!(pctChangeAt (b :: rest) 0).isNan) = false := by
      simp [pctChangeAt_zero, RVal.isNan]
    rw [h0, if_neg (by simp)]
    apply List.filter_eq_self.mpr
    intro a ha
    rw [List.mem_range'_1] at ha
    have := h a ha.1 (by omega)
    cases hpc : pctChangeAt (b :: rest) a <;> simp_all [RVal.isNan]

/-! ### Lemmas about the Quote Store upsert -/

/-- Rows whose key does not occur among the keys of `L`. -/
def keyFree (L : List Row) (r : Row) : Bool := decide (r.key ∉ L.map Row.key)

theorem upsertAll_nil (db : Store) : upsertAll db [] = db := rfl

theorem upsertAll_cons (db : Store) (r : Row) (L : List Row) :
    upsertAll db (r :: L) = upsertAll (upsert db r) L := rfl

theorem upsertAll_append (db : Store) (L1 L2 : List Row) :
    upsertAll db (L1 ++ L2) = upsertAll (upsertAll db L1) L2 := by
  simp [upsertAll, List.foldl_append]

theorem upsertAll_eq (L : List Row) : ∀ S : Store,
    upsertAll S L = S.filter (keyFree L) ++ upsertAll [] L := by
  induction L with
  | nil =>
    intro S
    simp only [upsertAll, List.foldl_nil, List.append_nil]
    symm
    apply List.filter_eq_self.mpr
    intro a _
    simp [keyFree]
  | cons a L ih =>
    intro S
    rw [upsertAll_cons, ih (upsert S a), upsertAll_cons, ih (upsert [] a)]
    simp only [upsert, List.filter_append, List.append_assoc, List.filter_nil,
      List.nil_append]
    congr 1
    rw [List.filter_filter]
    apply List.filter_congr
    intro x _
    simp [keyFree, not_or, Bool.and_comm]

theorem mem_upsertAll {r : Row} {L : List Row} : ∀ {S : Store},
    r ∈ upsertAll S L → r ∈ S ∨ r.key ∈ L.map Row.key := by
  induction L with
  | nil => intro S h; exact Or.inl h
  | cons a L ih =>
    intro S h
    rw [upsertAll_cons] at h
    rcases ih h with h' | h'
    · rw [upsert, List.mem_append] at h'
      rcases h' with h' | h'
      · exact Or.inl (List.mem_of_mem_filter h')
      · simp only [List.mem_singleton] at h'
        subst h'
        simp
    · simp [h']

theorem upsertAll_idem (S : Store) (L : List Row) :
    upsertAll (upsertAll S L) L = upsertAll S L := by
  rw [upsertAll_eq L (upsertAll S L)]
  rw [show upsertAll S L = S.filter (keyFree L) ++ upsertAll [] L from upsertAll_eq L S]
  rw [List.filter_append, List.filter_filter]
  have h1 : List.filter (fun a => keyFree L a && keyFree L a) S = List.filter (keyFree L) S := by
    apply List.filter_congr
    intro x _
    cases keyFree L x <;> rfl
  have h2 : List.filter (keyFree L) (upsertAll [] L) = [] := by
    rw [List.filter_eq_nil_iff]
    intro a ha
    rcases mem_upsertAll ha with h | h
    · cases h
    · simp [keyFree, h]
  rw [h1, h2]
  simp

/-- The `(symbol, date)` primary-key uniqueness invariant of `daily_quotes`. -/
def nodupKeys (db : Store) : Prop := (db.map Row.key).Nodup

theorem nodupKeys_upsert {S : Store} (h : nodupKeys S) (r : Row) :
    nodupKeys (upsert S r) := by
  rw [upsert, nodupKeys, List.map_append]
  apply List.Nodup.append
  · exact ((List.filter_sublist S).map Row.key).nodup h
  · simp
  · intro k hk hk'
    simp only [List.map_cons, List.map_nil, List.mem_singleton] at hk'
    subst hk'
    obtain ⟨x, hx, hxk⟩ := List.mem_map.mp hk
    have := List.of_mem_filter hx
    simp only [decide_eq_true_eq] at this
    exact this (by rw [hxk])

theorem nodupKeys_upsertAll {L : List Row} : ∀ {S : Store},
    nodupKeys S → nodupKeys (upsertAll S L) := by
  induction L with
  | nil => intro S h; exact h
  | cons a L ih =>
    intro S h
    rw [upsertAll_cons]
    exact ih (nodupKeys_upsert h a)

/-! ### Lemmas about the Collector loop -/

/-- The rows one loop iteration of `fetch_data` commits for symbol `s`
(empty when the provider errors or returns an empty history). -/
def symRows (provider : String → ProviderResult) (s : String) : List Row :=
  match provider s with
  | .error _ => []
  | .ok (hist, info) => if hist.isEmpty then [] else deriveRows s hist (peOf info)

/-- All rows one `fetch_data` run commits, in commit order. -/
def collectRows (provider : String → ProviderResult) (symbols : List String) : List Row :=
  (symbols.map (symRows provider)).flatten

theorem fetchData_ok {provider : String → ProviderResult} : ∀ {symbols : List String},
    (∀ s ∈ symbols, ∃ v, provider s = .ok v) → ∀ db : Store,
    fetchData provider symbols db = (upsertAll db (collectRows provider symbols), none) := by
  intro symbols
  induction symbols with
  | nil => intro _ db; simp [fetchData, collectRows, upsertAll_nil]
  | cons s rest ih =>
    intro h db
    obtain ⟨⟨hist, info⟩, hv⟩ := h s (List.mem_cons_self s rest)
    have hrest := fun t ht => h t (List.mem_cons_of_mem s ht)
    have hcoll : collectRows provider (s :: rest)
        = symRows provider s ++ collectRows provider rest := by
      simp [collectRows]
    by_cases he : hist.isEmpty
    · rw [show fetchData provider (s :: rest) db = fetchData provider rest db by
        simp [fetchData, hv, he]]
      rw [ih hrest db, hcoll]
      have : symRows provider s = [] := by simp [symRows, hv, he]
      rw [this, List.nil_append]
    · rw [show fetchData provider (s :: rest) db
          = fetchData provider rest (upsertAll db (deriveRows s hist (peOf info))) by
        simp [fetchData, hv, he]]
      rw [ih hrest, hcoll]
      have : symRows provider s = deriveRows s hist (peOf info) := by
        simp [symRows, hv, he]
      rw [this, upsertAll_append]

theorem fetchData_no_err {provider : String → ProviderResult} : ∀ {symbols : List String}
    {db : Store}, (fetchData provider symbols db).2 = none →
    ∀ s ∈ symbols, ∃ v, provider s = .ok v := by
  intro symbols
  induction symbols with
  | nil => intro db _ s hs; cases hs
  | cons a rest ih =>
    intro db h s hs
    rcases List.mem_cons.mp hs with rfl | hs'
    · cases hv : provider s with
      | error e =>
        rw [show fetchData provider (s :: rest) db = (db, some e) by
          simp [fetchData, hv]] at h
        cases h
      | ok v => exact ⟨v, rfl⟩
    · cases hv : provider a with
      | error e =>
        rw [show fetchData provider (a :: rest) db = (db, some e) by
          simp [fetchData, hv]] at h
        cases h
      | ok v =>
        obtain ⟨hist, info⟩ := v
        by_cases he : hist.isEmpty
        · rw [show fetchData provider (a :: rest) db = fetchData provider rest db by
            simp [fetchData, hv, he]] at h
          exact ih h s hs'
        · rw [show fetchData provider (a :: rest) db
              = fetchData provider rest (upsertAll db (deriveRows a hist (peOf info))) by
            simp [fetchData, hv, he]] at h
          exact ih h s hs'


/-! ### Concrete data used by witnesses -/

/-- A two-bar price history: closes 100 then 110, volumes 1000 then 1200. -/
def pbars : List RawBar := [⟨0, 0, 0, 0, 100, 1000⟩, ⟨1, 0, 5, 1, 110, 1200⟩]

theorem pbars_derive (pe : ℚ) : deriveRows "A" pbars pe = [mkRow "A" pbars pe 1] := by
  norm_num [deriveRows, pbars, List.range_succ, pctChangeAt, rdiv, rvSub1, rvMul100,
    closeAt, RVal.isNan, List.filterMap_cons, List.getD]

/-- A provider that always succeeds with the `pbars` history and a P/E of 7. -/
def pW : String → ProviderResult := fun _ => .ok (pbars, some 7)

theorem pW_run : fetchData pW ["A"] [] = ([mkRow "A" pbars 7 1], none) := by
  have h1 : fetchData pW ["A"] []
      = fetchData pW [] (upsertAll [] (deriveRows "A" pbars (peOf (some 7)))) := rfl
  rw [h1, show peOf (some 7) = 7 from rfl, pbars_derive]
  rfl

/-- C1: collection is idempotent.  If one `fetch_data` run over the same
provider data completes without error and turns the table `db` into `db₁`,
then running it again from `db₁` leaves the table at `db₁` unchanged, and the
`(symbol, date)` primary key stays duplicate-free: the `INSERT OR REPLACE`
replaces rather than duplicates. -/
theorem c1_collect_idempotent (provider : String → ProviderResult)
    (symbols : List String) (db db₁ : Store)
    (h : fetchData provider symbols db = (db₁, none)) :
    fetchData provider symbols db₁ = (db₁, none)
      ∧ (nodupKeys db → nodupKeys db₁) := by
  have h2 : (fetchData provider symbols db).2 = none := by rw [h]
  have hok := fetchData_no_err h2
  have he := @fetchData_ok provider symbols hok
  have hdb : db₁ = upsertAll db (collectRows provider symbols) := by
    have h3 := he db
    rw [h] at h3
    rw [Prod.ext_iff] at h3
    exact h3.1
  constructor
  · rw [he db₁, hdb, upsertAll_idem]
  · intro hnd
    rw [hdb]
    exact nodupKeys_upsertAll hnd

/-- C1 witness: a concrete run (provider `pW`, symbol list `["A"]`) from the
empty table produces one row; re-running from that state changes nothing. -/
theorem c1_witness :
    fetchData pW ["A"] [mkRow "A" pbars 7 1] = ([mkRow "A" pbars 7 1], none)
      ∧ (nodupKeys [] → nodupKeys [mkRow "A" pbars 7 1]) :=
  c1_collect_idempotent pW ["A"] [] [mkRow "A" pbars 7 1] pW_run

/-- C9: within one fetch of one symbol, every stored row carries the same
`pe_ratio` — the single snapshot passed to every INSERT. -/
theorem c9_pe_snapshot_uniform (s : String) (bars : List RawBar) (pe : ℚ)
    (r : Row) (h : r ∈ deriveRows s bars pe) : r.pe_ratio = pe :=
  deriveRows_pe h

/-- C9 witness: the concrete fetch of `pbars` with P/E 7 stores a row and its
`pe_ratio` is 7. -/
theorem c9_witness : mkRow "A" pbars 7 1 ∈ deriveRows "A" pbars 7
    ∧ (mkRow "A" pbars 7 1).pe_ratio = 7 :=
  have hm : mkRow "A" pbars 7 1 ∈ deriveRows "A" pbars 7 := by
    rw [pbars_derive]
    exact List.mem_singleton_self _
  ⟨hm, c9_pe_snapshot_uniform "A" pbars 7 _ hm⟩

/-- C10 (implicit): when the provider metadata has no trailing P/E
(`info.get('trailingPE', 0)` with the key absent), every row stored in that
fetch has `pe_ratio = 0` — a sentinel indistinguishable from a true zero. -/
theorem c10_absent_pe_stored_as_zero (s : String) (bars : List RawBar)
    (r : Row) (h : r ∈ deriveRows s bars (peOf none)) : r.pe_ratio = 0 :=
  deriveRows_pe h

/-- C10 witness: the concrete fetch of `pbars` with absent P/E metadata
stores a row whose `pe_ratio` is 0. -/
theorem c10_witness : mkRow "A" pbars (peOf none) 1 ∈ deriveRows "A" pbars (peOf none)
    ∧ (mkRow "A" pbars (peOf none) 1).pe_ratio = 0 :=
  have hm : mkRow "A" pbars (peOf none) 1 ∈ deriveRows "A" pbars (peOf none) := by
    rw [pbars_derive]
    exact List.mem_singleton_self _
  ⟨hm, c10_absent_pe_stored_as_zero "A" pbars _ hm⟩


/-- A two-bar history whose closes are both zero: pandas `pct_change` is
`0/0 = NaN` at index 1, so the row for index 1 is also dropped. -/
def zbars : List RawBar := [⟨0, 0, 0, 0, 0, 50⟩, ⟨1, 0, 0, 0, 0, 60⟩]

/-- C2 counterexample: for the raw series `zbars` (length 2), the collector
stores 0 rows, not N-1 = 1: the NaN filter also drops later rows whose
`pct_change` is `0/0`, so "exactly N-1 rows for every series" fails. -/
theorem c2_counterexample :
    zbars.length = 2 ∧ (deriveRows "Z" zbars 0).length = 0 := by
  constructor
  · rfl
  · norm_num [deriveRows, zbars, List.range_succ, pctChangeAt, rdiv, rvSub1, rvMul100,
      closeAt, RVal.isNan, List.filterMap_cons, List.getD]

/-- C2 (amended): for a raw series of length N ≥ 2 in which no two
consecutive closes are both zero (so `pct_change` is NaN only at index 0),
the deriver keeps exactly the bars at indices 1..N-1 — the first observation
is dropped, never stored — and therefore stores exactly N-1 rows. -/
theorem c2_first_dropped_n_minus_one (s : String) (bars : List RawBar) (pe : ℚ)
    (_hN : 2 ≤ bars.length)
    (h : ∀ i, 1 ≤ i → i < bars.length →
      ¬ (closeAt bars (i - 1) = 0 ∧ closeAt bars i = 0)) :
    deriveRows s bars pe = (List.range' 1 (bars.length - 1)).map (mkRow s bars pe)
      ∧ (deriveRows s bars pe).length = bars.length - 1 := by
  have hk : keptIdx bars = List.range' 1 (bars.length - 1) := by
    apply keptIdx_eq
    intro i h1 h2 hnan
    exact h i h1 h2 ((pctChangeAt_nan_iff bars i (by omega)).mp hnan)
  have hmap := deriveRows_eq_map s bars pe
  rw [hk] at hmap
  refine ⟨hmap, ?_⟩
  rw [hmap, List.length_map, List.length_range']

/-- C2 witness: the two-bar series `pbars` (closes 100, 110) stores exactly
one row, the first observation dropped. -/
theorem c2_witness :
    2 ≤ pbars.length
    ∧ (deriveRows "A" pbars 3
        = (List.range' 1 (pbars.length - 1)).map (mkRow "A" pbars 3)
      ∧ (deriveRows "A" pbars 3).length = pbars.length - 1) :=
  have hN : 2 ≤ pbars.length := by norm_num [pbars]
  have h : ∀ i, 1 ≤ i → i < pbars.length →
      ¬ (closeAt pbars (i - 1) = 0 ∧ closeAt pbars i = 0) := by
    intro i h1 h2
    have hi : i = 1 := by
      simp only [pbars, List.length_cons, List.length_nil] at h2
      omega
    subst hi
    norm_num [closeAt, pbars, List.getD]
  ⟨hN, c2_first_dropped_n_minus_one "A" pbars 3 hN h⟩

/-- Pointwise identity of the two pandas formulas, including the IEEE
non-finite cases: `(c/p - 1) * 100` (what line 58 computes) agrees with
`(c - p)/p * 100` (the spec's round-trip recomputation). -/
theorem pct_recompute (p c : ℚ) :
    rvMul100 (rvSub1 (rdiv c p)) = rvMul100 (rdiv (c - p) p) := by
  by_cases hp : p = 0
  · subst hp
    rcases lt_trichotomy 0 c with h | h | h
    · simp [rdiv, rvSub1, rvMul100, h]
    · simp [rdiv, rvSub1, rvMul100, ← h]
    · simp [rdiv, rvSub1, rvMul100, h, not_lt_of_lt h]
  · simp only [rdiv, if_pos hp, rvSub1, rvMul100, ne_eq, hp, not_false_eq_true,
      if_true, RVal.fin.injEq]
    field_simp

theorem keptIdx_get_mono (bars : List RawBar) {j k : ℕ}
    (hjk : j < k) (hk : k < (keptIdx bars).length) :
    (keptIdx bars).get ⟨j, by omega⟩ < (keptIdx bars).get ⟨k, hk⟩ :=
  List.pairwise_iff_getElem.mp (keptIdx_sorted bars) j k (by omega) hk hjk

theorem keptIdx_between (bars : List RawBar) (j : ℕ)
    (hj : j + 1 < (keptIdx bars).length) (m : ℕ)
    (h1 : (keptIdx bars).get ⟨j, by omega⟩ < m)
    (h2 : m < (keptIdx bars).get ⟨j + 1, hj⟩) :
    pctChangeAt bars m = .nan := by
  by_contra hm
  have hmlt : m < bars.length := by
    have hb := mem_keptIdx.mp (List.get_mem (keptIdx bars) (j + 1) hj)
    omega
  have hmem : m ∈ keptIdx bars := mem_keptIdx.mpr ⟨hmlt, hm⟩
  obtain ⟨k, hklt, hk⟩ := List.getElem_of_mem hmem
  rcases lt_trichotomy k j with h | h | h
  · have hlt := keptIdx_get_mono bars h (show j < (keptIdx bars).length by omega)
    have hgk : (keptIdx bars).get ⟨k, by omega⟩ = m := hk
    omega
  · subst h
    have hgk : (keptIdx bars).get ⟨k, by omega⟩ = m := hk
    omega
  · rcases Nat.lt_or_ge (j + 1) k with h4 | h4
    · have hlt := keptIdx_get_mono bars h4 hklt
      have hgk : (keptIdx bars).get ⟨k, hklt⟩ = m := hk
      omega
    · have hkj : k = j + 1 := by omega
      subst hkj
      have hgk : (keptIdx bars).get ⟨j + 1, hj⟩ = m := hk
      omega

theorem kept_close_prev (bars : List RawBar) (j : ℕ)
    (hj : j + 1 < (keptIdx bars).length) :
    closeAt bars ((keptIdx bars).get ⟨j + 1, hj⟩ - 1)
      = closeAt bars ((keptIdx bars).get ⟨j, by omega⟩) := by
  have hab : (keptIdx bars).get ⟨j, by omega⟩ < (keptIdx bars).get ⟨j + 1, hj⟩ :=
    keptIdx_get_mono bars (by omega) hj
  set a := (keptIdx bars).get ⟨j, by omega⟩ with ha
  set b := (keptIdx bars).get ⟨j + 1, hj⟩ with hb
  by_cases hb1 : b = a + 1
  · rw [hb1]
    simp
  · have h2 : a + 1 < b := by omega
    have hm1 : pctChangeAt bars (a + 1) = .nan :=
      keptIdx_between bars j hj (a + 1) (by omega) (by omega)
    have hm2 : pctChangeAt bars (b - 1) = .nan :=
      keptIdx_between bars j hj (b - 1) (by omega) (by omega)
    have ha0 : closeAt bars a = 0 := by
      have h5 := ((pctChangeAt_nan_iff bars (a + 1) (by omega)).mp hm1).1
      simpa using h5
    have hb0 : closeAt bars (b - 1) = 0 :=
      ((pctChangeAt_nan_iff bars (b - 1) (by omega)).mp hm2).2
    rw [ha0, hb0]


/-- The spec's worked example: closes 100, 110, 99. -/
def exBars : List RawBar :=
  [⟨0, 0, 0, 0, 100, 0⟩, ⟨1, 0, 0, 0, 110, 0⟩, ⟨2, 0, 0, 0, 99, 0⟩]

theorem exBars_pct :
    (deriveRows "E" exBars 11).map Row.pct_change = [.fin 10, .fin (-10)] := by
  norm_num [deriveRows, exBars, List.range_succ, pctChangeAt, rdiv, rvSub1, rvMul100,
    closeAt, RVal.isNan, List.filterMap_cons, List.getD, mkRow]

/-- C3: `pct_change` round-trips.  For any two consecutive stored rows of one
fetch, the later row's stored `pct_change` equals
`(close[i] - close[i-1]) / close[i-1] * 100` recomputed (in the same IEEE
value domain) from the two stored closes; and the spec's example series with
closes 100, 110, 99 stores `pct_change` 10 then -10. -/
theorem c3_pct_change_roundtrip :
    (∀ (s : String) (bars : List RawBar) (pe : ℚ) (j : ℕ)
      (hj : j + 1 < (deriveRows s bars pe).length),
      ((deriveRows s bars pe).get ⟨j + 1, hj⟩).pct_change
        = rvMul100 (rdiv
            (((deriveRows s bars pe).get ⟨j + 1, hj⟩).close
              - ((deriveRows s bars pe).get ⟨j, by omega⟩).close)
            (((deriveRows s bars pe).get ⟨j, by omega⟩).close)))
    ∧ (deriveRows "E" exBars 11).map Row.pct_change = [.fin 10, .fin (-10)] := by
  constructor
  · intro s bars pe j hj
    have hmap := deriveRows_eq_map s bars pe
    have hlen : (deriveRows s bars pe).length = (keptIdx bars).length := by
      rw [hmap, List.length_map]
    have hj' : j + 1 < (keptIdx bars).length := by omega
    have hget : ∀ (i : ℕ) (hi : i < (deriveRows s bars pe).length) (hi' : i < (keptIdx bars).length),
        (deriveRows s bars pe).get ⟨i, hi⟩
          = mkRow s bars pe ((keptIdx bars).get ⟨i, hi'⟩) := by
      intro i hi hi'
      have him : i < ((keptIdx bars).map (mkRow s bars pe)).length := by
        rw [List.length_map]
        exact hi'
      rw [List.get_eq_getElem]
      have h2 : (deriveRows s bars pe)[i]
          = ((keptIdx bars).map (mkRow s bars pe))[i] := by
        congr 1
      rw [h2, List.getElem_map]
      rfl
    rw [hget (j + 1) hj hj', hget j (by omega) (by omega)]
    set a := (keptIdx bars).get ⟨j, by omega⟩ with ha
    set b := (keptIdx bars).get ⟨j + 1, hj'⟩ with hb
    have hbmem : b ∈ keptIdx bars := by
      rw [hb]
      exact List.get_mem (keptIdx bars) (j + 1) hj'
    have hbprops := mem_keptIdx.mp hbmem
    have hb0 : b ≠ 0 := by
      intro h0
      exact hbprops.2 (by rw [h0]; exact pctChangeAt_zero bars)
    show pctChangeAt bars b
      = rvMul100 (rdiv (closeAt bars b - closeAt bars a) (closeAt bars a))
    rw [pctChangeAt, if_neg hb0, pct_recompute, kept_close_prev bars j hj']
  · exact exBars_pct

/-- C3 witness: the round-trip theorem instantiated on the example series at
the first pair of consecutive stored rows. -/
theorem c3_witness :
    0 + 1 < (deriveRows "E" exBars 11).length
    ∧ ((deriveRows "E" exBars 11).get ⟨0 + 1, by
        have h := congrArg List.length exBars_pct
        simp only [List.length_map] at h
        simp only [List.length_cons, List.length_nil] at h
        omega⟩).pct_change
      = rvMul100 (rdiv
          (((deriveRows "E" exBars 11).get ⟨0 + 1, by
            have h := congrArg List.length exBars_pct
            simp only [List.length_map] at h
            simp only [List.length_cons, List.length_nil] at h
            omega⟩).close
            - ((deriveRows "E" exBars 11).get ⟨0, by
            have h := congrArg List.length exBars_pct
            simp only [List.length_map] at h
            simp only [List.length_cons, List.length_nil] at h
            omega⟩).close)
          (((deriveRows "E" exBars 11).get ⟨0, by
            have h := congrArg List.length exBars_pct
            simp only [List.length_map] at h
            simp only [List.length_cons, List.length_nil] at h
            omega⟩).close)) :=
  have hlen : 0 + 1 < (deriveRows "E" exBars 11).length := by
    have h := congrArg List.length exBars_pct
    simp only [List.length_map] at h
    simp only [List.length_cons, List.length_nil] at h
    omega
  ⟨hlen, c3_pct_change_roundtrip.1 "E" exBars 11 0 hlen⟩


/-- Six bars with constant close 1 and constant volume 10. -/
def vbars : List RawBar :=
  [⟨0, 0, 0, 0, 1, 10⟩, ⟨1, 0, 0, 0, 1, 10⟩, ⟨2, 0, 0, 0, 1, 10⟩,
   ⟨3, 0, 0, 0, 1, 10⟩, ⟨4, 0, 0, 0, 1, 10⟩, ⟨5, 0, 0, 0, 1, 10⟩]

/-- C4 counterexample: on `vbars` the stored rows (raw indices 1..5) have
`vol_ratio` NaN, NaN, NaN, 1, 1 — the first indices are undefined (NaN from
the full five-sample `rolling(window=5)`), not a non-null shrinking-window
value as the claim asserts. -/
theorem c4_counterexample :
    (deriveRows "V" vbars 2).map Row.vol_ratio
      = [.nan, .nan, .nan, .fin 1, .fin 1] := by
  norm_num [deriveRows, vbars, List.range_succ, pctChangeAt, rdiv, rvSub1, rvMul100,
    closeAt, volAt, RVal.isNan, List.filterMap_cons, List.getD, mkRow,
    volRatioAt, rollMean5]

/-- C4 (amended): the code uses pandas' full-window `rolling(window=5)`
policy, not a shrinking window.  For a series with nonzero closes (so row
j of the output corresponds to raw index j+1): stored rows with fewer than 5
accumulated sessions (j < 3, raw index < 4) have `vol_ratio = NaN`
(undefined), and from the fifth session on `vol_ratio` is the volume divided
by the mean of the trailing five volumes including the current session. -/
theorem c4_vol_ratio_full_window (s : String) (bars : List RawBar) (pe : ℚ)
    (hc : ∀ i, i < bars.length → closeAt bars i ≠ 0) (j : ℕ)
    (hj : j < (deriveRows s bars pe).length) :
    (j < 3 → ((deriveRows s bars pe).get ⟨j, hj⟩).vol_ratio = .nan)
    ∧ (3 ≤ j → ((deriveRows s bars pe).get ⟨j, hj⟩).vol_ratio
        = rdiv (volAt bars (j + 1))
            ((volAt bars (j - 3) + volAt bars (j - 2) + volAt bars (j - 1)
              + volAt bars j + volAt bars (j + 1)) / 5)) := by
  have hkept : keptIdx bars = List.range' 1 (bars.length - 1) := by
    apply keptIdx_eq
    intro i h1 h2 hnan
    have h3 := (pctChangeAt_nan_iff bars i (by omega)).mp hnan
    exact hc i h2 h3.2
  have hmap := deriveRows_eq_map s bars pe
  rw [hkept] at hmap
  have hg : (deriveRows s bars pe).get ⟨j, hj⟩ = mkRow s bars pe (1 + j) := by
    have hj2 : j < ((List.range' 1 (bars.length - 1)).map (mkRow s bars pe)).length := by
      rw [← hmap]
      exact hj
    rw [List.get_eq_getElem]
    have h2 : (deriveRows s bars pe)[j]
        = ((List.range' 1 (bars.length - 1)).map (mkRow s bars pe))[j] := by
      congr 1
    rw [h2, List.getElem_map, List.getElem_range']
    norm_num
  rw [hg]
  constructor
  · intro h3
    have hm : rollMean5 bars (1 + j) = .nan := by
      rw [rollMean5, if_pos (show 1 + j + 1 < 5 by omega)]
    show volRatioAt bars (1 + j) = .nan
    simp only [volRatioAt, hm]
  · intro h3
    have e1 : j + 1 - 4 = j - 3 := by omega
    have e2 : j + 1 - 3 = j - 2 := by omega
    have e3 : j + 1 - 2 = j - 1 := by omega
    have e4 : j + 1 - 1 = j := by omega
    have e5 : 1 + j = j + 1 := by omega
    have hm : rollMean5 bars (j + 1)
        = .fin ((volAt bars (j - 3) + volAt bars (j - 2) + volAt bars (j - 1)
            + volAt bars j + volAt bars (j + 1)) / 5) := by
      rw [rollMean5, if_neg (show ¬ j + 1 + 1 < 5 by omega), e1, e2, e3, e4]
    show volRatioAt bars (1 + j)
      = rdiv (volAt bars (j + 1))
          ((volAt bars (j - 3) + volAt bars (j - 2) + volAt bars (j - 1)
            + volAt bars j + volAt bars (j + 1)) / 5)
    rw [e5]
    simp only [volRatioAt, hm]

theorem vbars_derive : deriveRows "V" vbars 2
    = [mkRow "V" vbars 2 1, mkRow "V" vbars 2 2, mkRow "V" vbars 2 3,
       mkRow "V" vbars 2 4, mkRow "V" vbars 2 5] := by
  norm_num [deriveRows, vbars, List.range_succ, pctChangeAt, rdiv, rvSub1, rvMul100,
    closeAt, RVal.isNan, List.filterMap_cons, List.getD]

theorem vbars_len : (deriveRows "V" vbars 2).length = 5 := by
  rw [vbars_derive]
  rfl

/-- C4 witness: the full-window behaviour instantiated on `vbars` at the
first stored row (NaN) and the fifth (volume over the 5-session mean). -/
theorem c4_witness :
    ((deriveRows "V" vbars 2).get ⟨0, by rw [vbars_len]; omega⟩).vol_ratio = .nan
    ∧ ((deriveRows "V" vbars 2).get ⟨4, by rw [vbars_len]; omega⟩).vol_ratio
      = rdiv (volAt vbars (4 + 1))
          ((volAt vbars (4 - 3) + volAt vbars (4 - 2) + volAt vbars (4 - 1)
            + volAt vbars 4 + volAt vbars (4 + 1)) / 5) :=
  have hc : ∀ i, i < vbars.length → closeAt vbars i ≠ 0 := by
    intro i hi
    have h6 : i < 6 := by simpa [vbars] using hi
    interval_cases i <;> norm_num [closeAt, vbars, List.getD]
  ⟨(c4_vol_ratio_full_window "V" vbars 2 hc 0 (by rw [vbars_len]; omega)).1 (by omega),
   (c4_vol_ratio_full_window "V" vbars 2 hc 4 (by rw [vbars_len]; omega)).2 (by omega)⟩


/-- C5 counterexample: the two-bar fetch `pbars` stores a row whose
`vol_ratio` is NaN (the rolling mean needs 5 sessions) — a non-finite metric
field is written to `daily_quotes`; only a NaN `pct_change` is filtered. -/
theorem c5_counterexample :
    deriveRows "A" pbars 7 = [mkRow "A" pbars 7 1]
    ∧ (mkRow "A" pbars 7 1).vol_ratio = .nan
    ∧ (mkRow "A" pbars 7 1).vol_ratio.isFinite = false :=
  have h : (mkRow "A" pbars 7 1).vol_ratio = .nan := by
    show volRatioAt pbars 1 = .nan
    rw [volRatioAt, rollMean5, if_pos (by omega)]
  ⟨pbars_derive 7, h, by rw [h]; rfl⟩

/-- C5 (amended): the only sanity filter in the write path is
`pd.isna(row['pct_change'])`: no stored row has NaN `pct_change`, but ANY
bar whose `pct_change` is defined is stored, regardless of whether its other
metric fields (`vol_ratio`, `amplitude`) are non-finite. -/
theorem c5_only_pct_nan_filtered (s : String) (bars : List RawBar) (pe : ℚ) :
    (∀ r ∈ deriveRows s bars pe, r.pct_change ≠ .nan)
    ∧ (∀ i, i < bars.length → pctChangeAt bars i ≠ .nan →
        mkRow s bars pe i ∈ deriveRows s bars pe) := by
  constructor
  · intro r hr
    obtain ⟨i, -, hn, rfl⟩ := deriveRows_mem_iff.mp hr
    exact hn
  · intro i hi hn
    exact deriveRows_mem_iff.mpr ⟨i, hi, hn, rfl⟩

/-- C5 witness: on the concrete series `pbars`, index 1 has a defined
`pct_change`, its row is stored, and its stored `pct_change` is not NaN. -/
theorem c5_witness :
    (1 < pbars.length ∧ pctChangeAt pbars 1 ≠ .nan
      ∧ mkRow "A" pbars 7 1 ∈ deriveRows "A" pbars 7)
    ∧ (mkRow "A" pbars 7 1).pct_change ≠ .nan :=
  have h1 : 1 < pbars.length := by norm_num [pbars]
  have hn : pctChangeAt pbars 1 ≠ .nan := by
    have h10 : pctChangeAt pbars 1 = .fin 10 := by
      norm_num [pctChangeAt, rdiv, rvSub1, rvMul100, closeAt, pbars, List.getD]
    rw [h10]
    exact fun h => RVal.noConfusion h
  have hmem := (c5_only_pct_nan_filtered "A" pbars 7).2 1 h1 hn
  ⟨⟨h1, hn, hmem⟩, (c5_only_pct_nan_filtered "A" pbars 7).1 _ hmem⟩

/-- A provider whose fetch raises for symbol "B" and succeeds with the
`pbars` history (P/E 5) for every other symbol. -/
def pBad : String → ProviderResult := fun s =>
  if s = "B" then .error .providerDown else .ok (pbars, some 5)

/-- C6: the failing input.  With symbols A, B, C where B's fetch raises,
`fetch_data` has no try/except: A's rows are committed, the exception escapes
at B, and C is never fetched — the batch aborts instead of skipping B. -/
theorem c6_batch_aborts :
    fetchData pBad ["A", "B", "C"] [] = ([mkRow "A" pbars 5 1], some .providerDown)
    ∧ (∃ r ∈ (fetchData pBad ["A", "B", "C"] []).1, r.symbol = "A")
    ∧ (∀ r ∈ (fetchData pBad ["A", "B", "C"] []).1, r.symbol ≠ "C") := by
  have h1 : fetchData pBad ["A", "B", "C"] []
      = ([mkRow "A" pbars 5 1], some .providerDown) := by
    have e1 : fetchData pBad ["A", "B", "C"] []
        = fetchData pBad ["B", "C"]
            (upsertAll [] (deriveRows "A" pbars (peOf (some 5)))) := rfl
    rw [e1, show peOf (some 5) = (5 : ℚ) from rfl, pbars_derive]
    rfl
  refine ⟨h1, ?_, ?_⟩
  · rw [h1]
    exact ⟨mkRow "A" pbars 5 1, List.mem_singleton_self _, rfl⟩
  · rw [h1]
    intro r hr
    rw [List.mem_singleton] at hr
    subst hr
    show "A" ≠ "C"
    decide

/-! ### The read path (app.py) -/

/-- Two rows sharing date 5, symbols "B" and "A"; inserted B first. -/
def rB : Row := ⟨"B", 5, 0, .nan, 0, 0, .nan, .nan, 0⟩

/-- See `rB`. -/
def rA : Row := ⟨"A", 5, 0, .nan, 0, 0, .nan, .nan, 0⟩

/-- C7 counterexample: the query sorts by date only (`ORDER BY date ASC`);
with two rows of equal date stored in the order B, A, the result keeps B
before A — the date tie is NOT broken by symbol. -/
theorem c7_counterexample :
    (loadData (some [rB, rA]) ["A", "B"] 7 5).1 = [rB, rA]
    ∧ rB.date = rA.date ∧ rA.symbol = "A" ∧ rB.symbol = "B"
    ∧ (loadData (some [rB, rA]) ["A", "B"] 7 5).1 ≠ [rA, rB] := by
  have hfil : List.filter
      (fun r => List.contains ["A", "B"] r.symbol && decide ((5 : ℤ) - 7 ≤ r.date))
      [rB, rA] = [rB, rA] := by decide
  have hsorted : List.Pairwise
      (fun a b : Row => (decide (a.date ≤ b.date)) = true) [rB, rA] := by decide
  have h1 : (loadData (some [rB, rA]) ["A", "B"] 7 5).1 = [rB, rA] := by
    show (([rB, rA].filter
        (fun r => List.contains ["A", "B"] r.symbol && decide ((5 : ℤ) - 7 ≤ r.date))).mergeSort
        (fun a b => decide (a.date ≤ b.date))) = [rB, rA]
    rw [hfil]
    exact List.mergeSort_of_sorted hsorted
  refine ⟨h1, rfl, rfl, rfl, ?_⟩
  rw [h1]
  intro h
  have : rB = rA := by injection h
  exact absurd (congrArg Row.symbol this) (by decide)

/-- C7 (amended): for a non-empty symbol selection the query returns exactly
the stored rows whose symbol is selected and whose date is on or after
`now - window_days` (as a permutation of the filtered table), ordered
ascending by date; the relative order of rows with equal dates is NOT
specified by the query (no symbol tie-break — `ORDER BY date ASC` only). -/
theorem c7_query_window_sorted (db : Store) (symbols : List String)
    (days now : ℤ) (hs : symbols ≠ []) :
    ((loadData (some db) symbols days now).1.Perm
        (db.filter fun r => symbols.contains r.symbol && decide (now - days ≤ r.date)))
    ∧ (∀ r, r ∈ (loadData (some db) symbols days now).1 ↔
        r ∈ db ∧ r.symbol ∈ symbols ∧ now - days ≤ r.date)
    ∧ List.Pairwise (fun a b : Row => a.date ≤ b.date)
        (loadData (some db) symbols days now).1 := by
  have hne : symbols.isEmpty = false := by
    cases symbols with
    | nil => exact absurd rfl hs
    | cons a l => rfl
  have hl : (loadData (some db) symbols days now).1
      = (db.filter fun r =>
          symbols.contains r.symbol && decide (now - days ≤ r.date)).mergeSort
          (fun a b => decide (a.date ≤ b.date)) := by
    simp [loadData, hne]
  refine ⟨?_, ?_, ?_⟩
  · rw [hl]
    exact List.mergeSort_perm _ _
  · intro r
    rw [hl, List.mem_mergeSort, List.mem_filter]
    simp only [Bool.and_eq_true, decide_eq_true_eq, List.contains_iff_exists_mem_beq,
      beq_iff_eq, and_assoc]
    constructor
    · rintro ⟨h1, ⟨a, ha, rfl⟩, h3⟩
      exact ⟨h1, ha, h3⟩
    · rintro ⟨h1, h2, h3⟩
      exact ⟨h1, ⟨r.symbol, h2, rfl⟩, h3⟩
  · rw [hl]
    have htrans : ∀ a b c : Row, (fun a b : Row => decide (a.date ≤ b.date)) a b →
        (fun a b : Row => decide (a.date ≤ b.date)) b c →
        (fun a b : Row => decide (a.date ≤ b.date)) a c := by
      intro a b c hab hbc
      simp only [decide_eq_true_eq] at *
      omega
    have htotal : ∀ a b : Row, ((fun a b : Row => decide (a.date ≤ b.date)) a b
        || (fun a b : Row => decide (a.date ≤ b.date)) b a) = true := by
      intro a b
      simp only [Bool.or_eq_true, decide_eq_true_eq]
      omega
    have hp := List.sorted_mergeSort htrans htotal
      (db.filter fun r => symbols.contains r.symbol && decide (now - days ≤ r.date))
    exact hp.imp (fun h => by simpa using h)

/-- C7 witness: the query theorem instantiated on a one-row store. -/
theorem c7_witness :
    (["A"] : List String) ≠ []
    ∧ (((loadData (some [rA]) ["A"] 7 5).1.Perm
          ([rA].filter fun r =>
            List.contains ["A"] r.symbol && decide ((5 : ℤ) - 7 ≤ r.date)))
      ∧ (∀ r, r ∈ (loadData (some [rA]) ["A"] 7 5).1 ↔
          r ∈ [rA] ∧ r.symbol ∈ ["A"] ∧ (5 : ℤ) - 7 ≤ r.date)
      ∧ List.Pairwise (fun a b : Row => a.date ≤ b.date)
          (loadData (some [rA]) ["A"] 7 5).1) :=
  ⟨by simp, c7_query_window_sorted [rA] ["A"] 7 5 (by simp)⟩

/-- C8 counterexample: when the store cannot be opened, `load_data` does not
fail — it catches the exception and returns the same empty row sequence the
caller gets when the store is open but empty; the dashboard then renders the
same no-data view in both cases.  Only the side-channel UI error message
differs. -/
theorem c8_counterexample :
    (appView none ["A"] 7 0).1 = (appView (some []) ["A"] 7 0).1
    ∧ appView none ["A"] 7 0 = (.noDataMsg, true)
    ∧ appView (some []) ["A"] 7 0 = (.noDataMsg, false) := by
  have h1 : appView none ["A"] 7 0 = (.noDataMsg, true) := rfl
  have h2 : appView (some []) ["A"] 7 0 = (.noDataMsg, false) := by
    simp [appView, loadData]
  exact ⟨by rw [h1, h2], h1, h2⟩

/-- C8 (amended): on a failed store open, `load_data` shows the DB-read UI
error and returns an empty DataFrame — the very value the caller also gets
when no rows match; the returned data never distinguishes the two cases, and
no error propagates to the caller. -/
theorem c8_unavailable_returns_empty (symbols : List String) (days now : ℤ)
    (hs : symbols ≠ []) :
    loadData none symbols days now = ([], true)
    ∧ (∀ db : Store, (loadData (some db) symbols days now).2 = false) := by
  have hne : symbols.isEmpty = false := by
    cases symbols with
    | nil => exact absurd rfl hs
    | cons a l => rfl
  constructor
  · simp [loadData, hne]
  · intro db
    simp [loadData, hne]

/-- C8 witness: the amended behaviour at a concrete call. -/
theorem c8_witness :
    (["A"] : List String) ≠ []
    ∧ (loadData none ["A"] 7 0 = ([], true)
      ∧ (∀ db : Store, (loadData (some db) ["A"] 7 0).2 = false)) :=
  ⟨by simp, c8_unavailable_returns_empty ["A"] 7 0 (by simp)⟩

end StockMonitor
